import Mathlib

/-!
Verification development for a PDF batch-analysis tool (Gemini client).

The definitions below are a shallow embedding of the program's source:
`prompt_builder.py` (prompt compilation), `gemini_client.py` (the
per-document analysis pipeline, retry loop, response parsing and
credential validation), `app.py` (the batch loop) and `excel_export.py`
(result projection).  Library behaviour the source relies on
(`str.strip`, the fence regex, `json.loads`) is modelled faithfully on
`List Char` / `String`.
-/

/-- ASCII whitespace stripped by Python `str.strip()` and matched by the
regex class `\s` (space, tab, newline, carriage return, vertical tab,
form feed). -/
def isPyWs (c : Char) : Bool :=
  c == ' ' || c == '\t' || c == '\n' || c == '\r' || c == '\x0b' || c == '\x0c'

/-- Whitespace accepted between JSON tokens (RFC 8259, as in Python's
`json.loads`). -/
def isJsonWs (c : Char) : Bool :=
  c == ' ' || c == '\t' || c == '\n' || c == '\r'

/-- Model of Python `str.strip()` on a character list. -/
def pyStripL (l : List Char) : List Char :=
  ((l.dropWhile isPyWs).reverse.dropWhile isPyWs).reverse

/-- Model of Python `str.strip()`. -/
def pyStripS (s : String) : String :=
  ⟨pyStripL s.data⟩

/-- Skip inter-token JSON whitespace. -/
def skipWs (l : List Char) : List Char := l.dropWhile isJsonWs

/-- The tail part of the fence regex `(.*?)\n``` followed by the anchor
`$`: the remaining text must end with a newline and three backticks; the
lazy group is then forced to be everything before that suffix. -/
def splitFenceEnd (r : List Char) : Option (List Char) :=
  match r.reverse with
  | '\x60' :: '\x60' :: '\x60' :: '\n' :: bodyRev => some bodyRev.reverse
  | _ => none

/-- The `\s*\n` part of the fence regex with backtracking: the greedy
`\s*` prefers consuming a whitespace character, falling back to using the
current character as the mandatory `\n`. -/
def fsGo : List Char → Option (List Char)
  | [] => none
  | c :: rest =>
    if isPyWs c then
      match fsGo rest with
      | some body => some body
      | none => if c = '\n' then splitFenceEnd rest else none
    else none

/-- Model of `re.match(r'^```(?:json)?\s*\n(.*?)\n```$', s, re.DOTALL)`
from `_parse_json_response`, returning the captured group when the whole
(stripped) text is a fenced block.  The optional `json` tag is greedy,
with the empty alternative as fallback. -/
def fenceStrip (s : List Char) : Option (List Char) :=
  if s.take 3 = ['\x60', '\x60', '\x60'] then
    let r := s.drop 3
    if r.take 4 = ['j', 's', 'o', 'n'] then
      match fsGo (r.drop 4) with
      | some body => some body
      | none => fsGo r
    else fsGo r
  else none

/-- JSON values as produced by `json.loads`.  Numbers keep their source
lexeme (their numeric stringification is not needed by any claim). -/
inductive JVal where
  | obj (kvs : List (String × JVal))
  | arr (xs : List JVal)
  | str (s : String)
  | num (lexeme : String)
  | bool (b : Bool)
  | null

/-- Value of a hexadecimal digit character. -/
def hexVal (c : Char) : Option Nat :=
  if '0' ≤ c ∧ c ≤ '9' then some (c.toNat - 48)
  else if 'a' ≤ c ∧ c ≤ 'f' then some (c.toNat - 87)
  else if 'A' ≤ c ∧ c ≤ 'F' then some (c.toNat - 55)
  else none

/-- Lower-case hexadecimal digit for a value below 16. -/
def hexDigit (n : Nat) : Char :=
  if n < 10 then Char.ofNat (48 + n) else Char.ofNat (87 + n)

/-- Single-character JSON string escapes. -/
def simpleEsc (e : Char) : Option Char :=
  if e = '"' then some '"'
  else if e = '\\' then some '\\'
  else if e = '/' then some '/'
  else if e = 'b' then some '\x08'
  else if e = 'f' then some '\x0c'
  else if e = 'n' then some '\n'
  else if e = 'r' then some '\r'
  else if e = 't' then some '\t'
  else none

/-- The value of four hexadecimal digit characters, as in a `\uXXXX`
escape. -/
def hex4 (a b c d : Char) : Option Nat :=
  match hexVal a, hexVal b, hexVal c, hexVal d with
  | some x, some y, some z, some w => some (4096 * x + 256 * y + 16 * z + w)
  | _, _, _, _ => none

/-- Decode one backslash escape (the input starts after the backslash):
a `\uXXXX` escape (surrogate pairs are combined; a lone surrogate is
rejected, the one place where the model is stricter than CPython), or a
simple escape.  Returns the decoded character and the remaining
input. -/
def decodeEsc : List Char → Option (Char × List Char)
  | [] => none
  | e :: rest2 =>
    if e = 'u' then
      match rest2 with
      | h1 :: h2 :: h3 :: h4 :: rest3 =>
        match hex4 h1 h2 h3 h4 with
        | none => none
        | some n =>
          if 55296 ≤ n ∧ n ≤ 56319 then
            match rest3 with
            | e2 :: e3 :: g1 :: g2 :: g3 :: g4 :: rest4 =>
              if e2 = '\\' ∧ e3 = 'u' then
                match hex4 g1 g2 g3 g4 with
                | none => none
                | some m =>
                  if 56320 ≤ m ∧ m ≤ 57343 then
                    some (Char.ofNat (65536 + (n - 55296) * 1024 + (m - 56320)), rest4)
                  else none
              else none
            | _ => none
          else if 56320 ≤ n ∧ n ≤ 57343 then none
          else some (Char.ofNat n, rest3)
      | _ => none
    else
      match simpleEsc e with
      | some ce => some (ce, rest2)
      | none => none

/-- Body of a JSON string literal after the opening quote: literal
characters (control characters must be escaped, strict mode) and
backslash escapes via `decodeEsc`.  Returns the decoded string and the
input after the closing quote.  The fuel only bounds the number of
decoded characters; callers pass the input length, which always
suffices since every step consumes at least one character. -/
def psGo : Nat → List Char → List Char → Option (String × List Char)
  | 0, _, _ => none
  | fuel + 1, l, acc =>
    match l with
    | [] => none
    | c :: rest =>
      if c = '"' then some (⟨acc.reverse⟩, rest)
      else if c = '\\' then
        match decodeEsc rest with
        | some (ch, rest2) => psGo fuel rest2 (ch :: acc)
        | none => none
      else if c.toNat < 32 then none
      else psGo fuel rest (c :: acc)

/-- JSON string literal (expects the opening quote). -/
def parseStr : List Char → Option (String × List Char)
  | '"' :: rest => psGo (rest.length + 1) rest []
  | _ => none

/-- JSON number, per the grammar `-?(0|[1-9][0-9]*)(\.[0-9]+)?([eE][+-]?[0-9]+)?`,
kept as its lexeme. -/
def parseNum (s : List Char) : Option (JVal × List Char) :=
  let negPart : List Char × List Char :=
    match s with
    | '-' :: r => (['-'], r)
    | _ => ([], s)
  let s1 := negPart.2
  match s1 with
  | [] => none
  | c :: _ =>
    if c.isDigit then
      let intPart : List Char :=
        match s1 with
        | '0' :: _ => ['0']
        | _ => s1.takeWhile Char.isDigit
      let r1 := s1.drop intPart.length
      let fracPart : List Char × List Char :=
        match r1 with
        | '.' :: r =>
          let ds := r.takeWhile Char.isDigit
          if ds = [] then ([], r1) else ('.' :: ds, r.drop ds.length)
        | _ => ([], r1)
      let r2 := fracPart.2
      let expPart : List Char × List Char :=
        match r2 with
        | 'e' :: '+' :: r =>
          let ds := r.takeWhile Char.isDigit
          if ds = [] then ([], r2) else ('e' :: '+' :: ds, r.drop ds.length)
        | 'e' :: '-' :: r =>
          let ds := r.takeWhile Char.isDigit
          if ds = [] then ([], r2) else ('e' :: '-' :: ds, r.drop ds.length)
        | 'e' :: r =>
          let ds := r.takeWhile Char.isDigit
          if ds = [] then ([], r2) else ('e' :: ds, r.drop ds.length)
        | 'E' :: '+' :: r =>
          let ds := r.takeWhile Char.isDigit
          if ds = [] then ([], r2) else ('E' :: '+' :: ds, r.drop ds.length)
        | 'E' :: '-' :: r =>
          let ds := r.takeWhile Char.isDigit
          if ds = [] then ([], r2) else ('E' :: '-' :: ds, r.drop ds.length)
        | 'E' :: r =>
          let ds := r.takeWhile Char.isDigit
          if ds = [] then ([], r2) else ('E' :: ds, r.drop ds.length)
        | _ => ([], r2)
      some (JVal.num ⟨negPart.1 ++ intPart ++ fracPart.1 ++ expPart.1⟩, expPart.2)
    else none

/-- Members of a JSON object after the opening brace (non-empty case),
parameterised by the value parser; the fuel bounds the number of
members. -/
def parseMembersWith (pv : List Char → Option (JVal × List Char)) :
    Nat → List Char → Option (List (String × JVal) × List Char)
  | 0, _ => none
  | f + 1, s =>
    match parseStr s with
    | none => none
    | some (k, r1) =>
      match skipWs r1 with
      | ':' :: r2 =>
        match pv (skipWs r2) with
        | none => none
        | some (v, r3) =>
          match skipWs r3 with
          | ',' :: r4 =>
            match parseMembersWith pv f (skipWs r4) with
            | none => none
            | some (kvs, r5) => some ((k, v) :: kvs, r5)
          | '\x7d' :: r4 => some ([(k, v)], r4)
          | _ => none
      | _ => none

/-- Elements of a JSON array after the opening bracket (non-empty case),
parameterised by the value parser. -/
def parseElemsWith (pv : List Char → Option (JVal × List Char)) :
    Nat → List Char → Option (List JVal × List Char)
  | 0, _ => none
  | f + 1, s =>
    match pv s with
    | none => none
    | some (v, r1) =>
      match skipWs r1 with
      | ',' :: r2 =>
        match parseElemsWith pv f (skipWs r2) with
        | none => none
        | some (vs, r3) => some (v :: vs, r3)
      | ']' :: r2 => some ([v], r2)
      | _ => none

/-- A JSON value; the fuel bounds the nesting depth. -/
def parseValue : Nat → List Char → Option (JVal × List Char)
  | 0, _ => none
  | f + 1, s =>
    match s with
    | [] => none
    | c :: rest =>
      if c = '\x7b' then
        let r := skipWs rest
        match r with
        | '\x7d' :: r2 => some (JVal.obj [], r2)
        | _ =>
          match parseMembersWith (parseValue f) (r.length + 1) r with
          | some (kvs, r3) => some (JVal.obj kvs, r3)
          | none => none
      else if c = '[' then
        let r := skipWs rest
        match r with
        | ']' :: r2 => some (JVal.arr [], r2)
        | _ =>
          match parseElemsWith (parseValue f) (r.length + 1) r with
          | some (vs, r3) => some (JVal.arr vs, r3)
          | none => none
      else if c = '"' then
        match psGo (rest.length + 1) rest [] with
        | some (t, r) => some (JVal.str t, r)
        | none => none
      else if c = 't' then
        match rest with
        | 'r' :: 'u' :: 'e' :: r => some (JVal.bool true, r)
        | _ => none
      else if c = 'f' then
        match rest with
        | 'a' :: 'l' :: 's' :: 'e' :: r => some (JVal.bool false, r)
        | _ => none
      else if c = 'n' then
        match rest with
        | 'u' :: 'l' :: 'l' :: r => some (JVal.null, r)
        | _ => none
      else parseNum s

/-- Model of `json.loads` on a character list: a single JSON value with
only whitespace around it. -/
def jsonLoadsL (l : List Char) : Option JVal :=
  match parseValue (l.length + 1) (skipWs l) with
  | some (v, r) => if skipWs r = [] then some v else none
  | none => none

/-- Model of `json.loads`. -/
def jsonLoads (s : String) : Option JVal :=
  jsonLoadsL s.data

/-- Model of Python `", ".join`. -/
def joinComma : List String → String
  | [] => ""
  | [c] => c
  | c :: rest => c ++ ", " ++ joinComma rest

mutual
/-- Model of Python `repr` on values decoded from JSON (string escaping
inside `repr` is not modelled; no claim depends on it). -/
def pyRepr : JVal → String
  | .obj kvs => "\x7b" ++ joinComma (pyReprMembers kvs) ++ "\x7d"
  | .arr xs => "[" ++ joinComma (pyReprList xs) ++ "]"
  | .str s => "'" ++ s ++ "'"
  | .num lx => lx
  | .bool b => if b then "True" else "False"
  | .null => "None"

/-- `repr` of each element of a list. -/
def pyReprList : List JVal → List String
  | [] => []
  | x :: xs => pyRepr x :: pyReprList xs

/-- `repr` of each member of an object. -/
def pyReprMembers : List (String × JVal) → List String
  | [] => []
  | (k, v) :: r => ("'" ++ k ++ "': " ++ pyRepr v) :: pyReprMembers r
end

/-- Model of Python `str()` on a value decoded from JSON (numbers keep
their lexeme; no claim depends on numeric stringification). -/
def pyStr : JVal → String
  | .str s => s
  | .num lx => lx
  | .bool b => if b then "True" else "False"
  | .null => "None"
  | v => pyRepr v

/-- The text `_parse_json_response` hands to `json.loads`: the response
stripped, with a surrounding markdown fence removed (and the fence body
stripped again) when the fence regex matches. -/
def cleanedL (l : List Char) : List Char :=
  let cleaned := pyStripL l
  match fenceStrip cleaned with
  | some body => pyStripL body
  | none => cleaned

/-- Embedding of `GeminiPDFAnalyzer._parse_json_response`: parse the
(possibly fenced) response as JSON; return the object's entries when it
is an object, wrap any other parsed value as `"Raw Response"` via
`str()`, and on a parse failure wrap the original (unstripped) response
text. -/
def parse_json_response (response_text : String) : List (String × JVal) :=
  match jsonLoadsL (cleanedL response_text.data) with
  | some (JVal.obj kvs) => kvs
  | some v => [("Raw Response", JVal.str (pyStr v))]
  | none => [("Raw Response", JVal.str response_text)]

/-- Escape one character for a JSON string literal: quote and backslash
get a backslash escape, control characters a `\u00XX` escape, everything
else is literal.
Modelled from the spec: "standard JSON object serialization" (the
source never serializes; `json.dumps` with minimal escaping is the
standard serializer the round-trip property quantifies over). -/
def escChar (c : Char) : List Char :=
  if c = '"' then ['\\', '"']
  else if c = '\\' then ['\\', '\\']
  else if c.toNat < 32 then
    ['\\', 'u', '0', '0', hexDigit (c.toNat / 16), hexDigit (c.toNat % 16)]
  else [c]

/-- Escape every character of a string body. -/
def escL : List Char → List Char
  | [] => []
  | c :: cs => escChar c ++ escL cs

/-- A JSON string literal for `s`. -/
def quoteL (s : String) : List Char :=
  '"' :: (escL s.data ++ ['"'])

/-- The members of a serialized flat string object, with `json.dumps`'s
default separators `", "` and `": "`. -/
def dumpsMembersL : List (String × String) → List Char
  | [] => []
  | [(k, v)] => quoteL k ++ ':' :: ' ' :: quoteL v
  | (k, v) :: rest => quoteL k ++ ':' :: ' ' :: quoteL v ++ ',' :: ' ' :: dumpsMembersL rest

/-- Standard JSON serialization of a flat string-to-string mapping
(insertion order preserved, as for a Python dict).
Modelled from the spec: "serialize is standard JSON object
serialization". -/
def dumps (m : List (String × String)) : String :=
  ⟨'\x7b' :: (dumpsMembersL m ++ ['\x7d'])⟩

/-- Outcome of one `generate_content` call in the retry loop of
`_generate_content_with_retry`: a response with a `text` attribute, a
response with a list of parts (a part contributes its text only if it
has a `text` attribute), a response with neither (the
"Unexpected response format" case), or a raised API error. -/
inductive GenResult where
  | textAttr (t : String)
  | parts (ps : List (Option String))
  | noFormat
  | apiError (msg : String)

/-- The body of one retry-loop iteration: extract the response text, or
the error message of the exception the iteration raises. -/
def extractText : GenResult → Except String String
  | .textAttr t => .ok t
  | .parts ps => .ok (String.join (ps.filterMap id))
  | .noFormat => .error "Unexpected response format from Gemini"
  | .apiError m => .error m

/-- `true` exactly on errors. -/
def isErr : Except String String → Bool
  | .error _ => true
  | .ok _ => false

/-- Result of the retry loop: the surfaced result, the backoff sleeps
performed (in order, in time units) and the number of attempts made. -/
structure RetryOut where
  result : Except String String
  sleeps : List Nat
  attempts : Nat

/-- Embedding of the loop of `_generate_content_with_retry`: `i` is the
current 0-indexed attempt, `remaining` the number of retries still
allowed.  On the last allowed attempt the attempt's own result (success
or its failure) is surfaced; earlier failed attempts sleep
`(i + 1) * 2` and continue. -/
def retryGo (gen : Nat → GenResult) : Nat → Nat → RetryOut
  | i, 0 => ⟨extractText (gen i), [], 1⟩
  | i, r + 1 =>
    match extractText (gen i) with
    | .ok t => ⟨.ok t, [], 1⟩
    | .error _ =>
      let o := retryGo gen (i + 1) r
      ⟨o.result, (i + 1) * 2 :: o.sleeps, o.attempts + 1⟩

/-- Embedding of `GeminiPDFAnalyzer._generate_content_with_retry`, with
the per-attempt behaviour of the remote service given by `gen`. -/
def generate_content_with_retry (gen : Nat → GenResult) (max_retries : Nat) : RetryOut :=
  retryGo gen 0 max_retries

/-- The environment one `analyze_pdf` call runs against: the upload
call's result, the per-attempt generation results, and whether the two
cleanup calls (remote delete, temp-file removal) succeed. -/
structure PipeEnv where
  uploadResult : Except String Unit
  gen : Nat → GenResult
  deleteOk : Bool
  removeOk : Bool

/-- Observable events of one `analyze_pdf` call, in order. -/
inductive Ev where
  | createTemp
  | uploadCall
  | sleep (n : Nat)
  | apiDelay
  | deleteRemote (ok : Bool)
  | removeTemp (ok : Bool)
deriving DecidableEq

/-- Result of one `analyze_pdf` call: the returned triple
`(success, result_dict, error_message)` plus the event trace. -/
structure PipeOut where
  success : Bool
  record : List (String × JVal)
  errMsg : Option String
  trace : List Ev

/-- Embedding of `GeminiPDFAnalyzer.analyze_pdf`: write the temp file,
upload it, generate with retry, parse the response, sleep the API delay,
and in the `finally` block delete the uploaded file (only if one was
obtained) and remove the temp file, swallowing cleanup failures.  Any
exception before the `finally` yields
`(False, {}, "Error analyzing <filename>: <cause>")`. -/
def analyze_pdf (env : PipeEnv) (max_retries : Nat) (filename : String) : PipeOut :=
  match env.uploadResult with
  | .error e =>
    ⟨false, [], some ("Error analyzing " ++ filename ++ ": " ++ e),
      [Ev.createTemp, Ev.uploadCall, Ev.removeTemp env.removeOk]⟩
  | .ok _ =>
    let r := generate_content_with_retry env.gen max_retries
    match r.result with
    | .error e =>
      ⟨false, [], some ("Error analyzing " ++ filename ++ ": " ++ e),
        Ev.createTemp :: Ev.uploadCall ::
          (r.sleeps.map Ev.sleep ++ [Ev.deleteRemote env.deleteOk, Ev.removeTemp env.removeOk])⟩
    | .ok text =>
      ⟨true, parse_json_response text, none,
        Ev.createTemp :: Ev.uploadCall ::
          (r.sleeps.map Ev.sleep ++
            [Ev.apiDelay, Ev.deleteRemote env.deleteOk, Ev.removeTemp env.removeOk])⟩

/-- The primary outcome of a pipeline run: the returned triple, without
the trace. -/
def primary (o : PipeOut) : Bool × List (String × JVal) × Option String :=
  (o.success, o.record, o.errMsg)

/-- `true` when the upload succeeded (a `RemoteHandle` was obtained). -/
def isOkUpload : Except String Unit → Bool
  | .ok _ => true
  | .error _ => false

/-- Recognizes temp-file removal events. -/
def isRemoveEv : Ev → Bool
  | .removeTemp _ => true
  | _ => false

/-- Recognizes remote-deletion events. -/
def isDeleteEv : Ev → Bool
  | .deleteRemote _ => true
  | _ => false

/-- `error_msg or ""`, for places the source uses the message of a
failed call. -/
def optStr : Option String → String
  | some s => s
  | none => ""

/-- Session state written by the batch loop of `app.py`. -/
structure BatchState where
  results : List (List (String × JVal))
  filenames : List String
  status : List (String × String)

/-- Embedding of the loop of `analyze_pdfs` in `app.py`: analyze each
document in order; store the parsed record on success and
`{"Error": error_msg}` on failure, plus the filename and a status
entry. -/
def analyze_pdfs (docs : List (String × PipeEnv)) (max_retries : Nat) : BatchState :=
  match docs with
  | [] => ⟨[], [], []⟩
  | (filename, env) :: rest =>
    let o := analyze_pdf env max_retries filename
    let s := analyze_pdfs rest max_retries
    ⟨(if o.success then o.record else [("Error", JVal.str (optStr o.errMsg))]) :: s.results,
     filename :: s.filenames,
     (if o.success then ("✅", "Success") else ("❌", optStr o.errMsg)) :: s.status⟩

/-- The stored result of one document, as the batch loop stores it. -/
def docEntry (env : PipeEnv) (max_retries : Nat) (filename : String) :
    List (String × JVal) :=
  let o := analyze_pdf env max_retries filename
  if o.success then o.record else [("Error", JVal.str (optStr o.errMsg))]

/-- Embedding of `format_results_for_export` in `excel_export.py`: one
export record per filename/result pair, with the reserved identity field
first, then every other declared column copied from the result with the
empty string as default. -/
def format_results_for_export (results : List (List (String × JVal)))
    (filenames : List String) (column_names : List String) :
    List (List (String × JVal)) :=
  (filenames.zip results).map (fun fr =>
    ("Document Name", JVal.str fr.1) ::
      (column_names.filter (fun c => c ≠ "Document Name")).map (fun c =>
        (c, ((fr.2).lookup c).getD (JVal.str ""))))

/-- A per-document analysis outcome as the spec describes it: success
with a record, or failure with a reason. -/
inductive Outcome where
  | success (record : List (String × JVal))
  | failure (reason : String)

/-- How `analyze_pdfs` stores an outcome in the results list
(`app.py`): the record itself on success, `{"Error": reason}` on
failure. -/
def storedRecord : Outcome → List (String × JVal)
  | .success r => r
  | .failure m => [("Error", JVal.str m)]

/-- The export records the application produces from a list of outcomes:
`format_results_for_export` applied to the stored results. -/
def exportRecords (outcomes : List Outcome) (filenames : List String)
    (column_names : List String) : List (List (String × JVal)) :=
  format_results_for_export (outcomes.map storedRecord) filenames column_names

/-- Model of Python `str.lower()` (per-character ASCII lowering; the
comparisons in the source only involve ASCII letters). -/
def pyLower (s : String) : String :=
  ⟨s.data.map Char.toLower⟩

/-- The requested-keys list of `build_analysis_prompt`
(`prompt_builder.py`): every column whose lower-casing is not
`"document name"`. -/
def outputColumns (column_names : List String) : List String :=
  column_names.filter (fun col => ¬ (pyLower col = "document name"))

/-- A column name quoted for the requested-keys list (`f'"{col}"'`). -/
def quoteField (col : String) : String :=
  "\"" ++ col ++ "\""

/-- The fixed structured-output instruction appended by
`build_analysis_prompt`, around the requested-keys list. -/
def promptInstr (column_list : String) : String :=
  "\n\nBased on your analysis, return your findings as a JSON object with exactly these keys: "
    ++ column_list
    ++ "\n\nEach value should be a string. If information for a field is not found, use \"N/A\".\n\nReturn ONLY the JSON object, no additional text or markdown formatting."

/-- Embedding of `build_analysis_prompt` in `prompt_builder.py`. -/
def build_analysis_prompt (user_prompt : String) (column_names : List String) : String :=
  let output_columns := outputColumns column_names
  if output_columns = [] then user_prompt
  else user_prompt ++ promptInstr (joinComma (output_columns.map quoteField))

/-- Python truthiness of `os.environ.get(...)`: `None` and the empty
string are falsy. -/
def pyTruthy : Option String → Bool
  | none => false
  | some t => ¬ (t = "")

/-- Embedding of `validate_api_key` in `gemini_client.py`, with the
value of the `GEMINI_API_KEY` environment variable as input (`none` when
unset). -/
def validate_api_key (gemini_api_key : Option String) : Bool × Option String :=
  if pyTruthy gemini_api_key then (true, gemini_api_key) else (false, none)

/-- The response text wrapped in a fenced block tagged `json`. -/
def fencedJson (t : String) : String :=
  "```json\n" ++ t ++ "\n```"

/-- The response text wrapped in an untagged fenced block. -/
def fencedPlain (t : String) : String :=
  "```\n" ++ t ++ "\n```"

theorem retryGo_attempts_pos (gen : Nat → GenResult) (r i : Nat) :
    1 ≤ (retryGo gen i r).attempts := by
  cases r with
  | zero => simp [retryGo]
  | succ r =>
    cases h : extractText (gen i) with
    | ok t => simp [retryGo, h]
    | error e => simp [retryGo, h]

theorem retryGo_spec (gen : Nat → GenResult) (r : Nat) : ∀ i : Nat,
    (retryGo gen i r).attempts ≤ r + 1 ∧
    (retryGo gen i r).sleeps
      = (List.range ((retryGo gen i r).attempts - 1)).map (fun j => (i + j + 1) * 2) ∧
    ((∀ j, j ≤ r → isErr (extractText (gen (i + j))) = true) →
      (retryGo gen i r).result = extractText (gen (i + r)) ∧
      (retryGo gen i r).attempts = r + 1) := by
  induction r with
  | zero =>
    intro i
    refine ⟨by simp [retryGo], by simp [retryGo], fun _ => ⟨by simp [retryGo], by simp [retryGo]⟩⟩
  | succ r ih =>
    intro i
    cases h : extractText (gen i) with
    | ok t =>
      refine ⟨by simp [retryGo, h], by simp [retryGo, h], fun hall => ?_⟩
      have h0 := hall 0 (by omega)
      rw [Nat.add_zero, h] at h0
      simp [isErr] at h0
    | error e =>
      obtain ⟨iha, ihs, ihr⟩ := ih (i + 1)
      have hpos := retryGo_attempts_pos gen r (i + 1)
      constructor
      · simp only [retryGo, h]
        omega
      constructor
      · simp only [retryGo, h]
        have hsplit : (retryGo gen (i + 1) r).attempts + 1 - 1
            = ((retryGo gen (i + 1) r).attempts - 1) + 1 := by omega
        rw [hsplit, List.range_succ_eq_map, List.map_cons, List.map_map, ihs]
        simp only [List.cons.injEq]
        refine ⟨trivial, List.map_congr_left (fun a _ => ?_)⟩
        simp only [Function.comp_apply, Nat.succ_eq_add_one]
        omega
      · intro hall
        have htl : ∀ j, j ≤ r → isErr (extractText (gen (i + 1 + j))) = true := by
          intro j hj
          have := hall (j + 1) (by omega)
          have harith : i + (j + 1) = i + 1 + j := by omega
          rw [harith] at this
          exact this
        obtain ⟨hres, hatt⟩ := ihr htl
        constructor
        · simp only [retryGo, h]
          rw [hres]
          have harith : i + 1 + r = i + (r + 1) := by omega
          rw [harith]
        · simp only [retryGo, h]
          omega

/-- C4: with retry bound `n`, generation is attempted at most `n + 1`
times; the backoff sleeps are exactly `(i + 1) * 2` after the `i`-th
failed non-final attempt (and nothing before the first attempt); when
every attempt fails, the last attempt's failure is the surfaced result
and exactly `n + 1` attempts are made. -/
theorem c4_retry_schedule (gen : Nat → GenResult) (n : Nat) :
    (generate_content_with_retry gen n).attempts ≤ n + 1 ∧
    (generate_content_with_retry gen n).sleeps
      = (List.range ((generate_content_with_retry gen n).attempts - 1)).map
          (fun i => (i + 1) * 2) ∧
    ((∀ i, i ≤ n → isErr (extractText (gen i)) = true) →
      (generate_content_with_retry gen n).result = extractText (gen n) ∧
      (generate_content_with_retry gen n).attempts = n + 1) := by
  obtain ⟨ha, hs, hr⟩ := retryGo_spec gen n 0
  refine ⟨ha, by simpa using hs, fun hall => ?_⟩
  obtain ⟨h1, h2⟩ := hr (by simpa using hall)
  exact ⟨by simpa using h1, h2⟩

/-- Witness for C4: a generator that always fails satisfies the
all-attempts-fail hypothesis with `n = 2`, and the scenario of the claim
(failures on attempts 0 and 1, success on attempt 2) sleeps 2 then 4 and
makes 3 attempts. -/
theorem c4_retry_schedule_witness :
    ((∀ i, i ≤ 2 → isErr (extractText ((fun _ => GenResult.apiError "boom") i)) = true) ∧
      (generate_content_with_retry (fun _ => GenResult.apiError "boom") 2).result
        = extractText ((fun _ => GenResult.apiError "boom") 2) ∧
      (generate_content_with_retry (fun _ => GenResult.apiError "boom") 2).attempts = 3) ∧
    (generate_content_with_retry
      (fun i => if i < 2 then GenResult.apiError "boom" else GenResult.textAttr "ok") 2).sleeps
        = [2, 4] ∧
    (generate_content_with_retry
      (fun i => if i < 2 then GenResult.apiError "boom" else GenResult.textAttr "ok") 2).attempts
        = 3 := by
  refine ⟨⟨fun i _ => rfl, ?_⟩, rfl, rfl⟩
  exact (c4_retry_schedule (fun _ => GenResult.apiError "boom") 2).2.2 (fun i _ => rfl)

theorem filter_sleep_removeEv (ns : List Nat) :
    (ns.map Ev.sleep).filter isRemoveEv = [] := by
  induction ns with
  | nil => rfl
  | cons h t ih => simp [List.filter_cons, isRemoveEv, ih]

theorem filter_sleep_deleteEv (ns : List Nat) :
    (ns.map Ev.sleep).filter isDeleteEv = [] := by
  induction ns with
  | nil => rfl
  | cons h t ih => simp [List.filter_cons, isDeleteEv, ih]

/-- C1: on every path of `analyze_pdf` (success, upload failure,
generation failure after exhausted retries — including the malformed
response format surfaced through the retry loop), the temp file is
removed exactly once, the remote handle is deleted exactly once when it
was obtained and never otherwise, and the primary outcome (success flag,
record, error message) does not depend on whether the cleanup calls
succeed. -/
theorem c1_cleanup_exactly_once (up : Except String Unit) (gen : Nat → GenResult)
    (d r : Bool) (n : Nat) (f : String) :
    ((analyze_pdf ⟨up, gen, d, r⟩ n f).trace.filter isRemoveEv).length = 1 ∧
    ((analyze_pdf ⟨up, gen, d, r⟩ n f).trace.filter isDeleteEv).length
      = (if isOkUpload up = true then 1 else 0) ∧
    (∀ d2 r2 : Bool,
      primary (analyze_pdf ⟨up, gen, d, r⟩ n f)
        = primary (analyze_pdf ⟨up, gen, d2, r2⟩ n f)) := by
  cases up with
  | error e =>
    refine ⟨?_, ?_, fun d2 r2 => ?_⟩ <;>
      simp [analyze_pdf, primary, isOkUpload, List.filter_cons, isRemoveEv, isDeleteEv]
  | ok u =>
    cases h : (generate_content_with_retry gen n).result with
    | error e =>
      refine ⟨?_, ?_, fun d2 r2 => ?_⟩ <;>
        simp [analyze_pdf, h, primary, isOkUpload, List.filter_cons, List.filter_append,
          isRemoveEv, isDeleteEv, filter_sleep_removeEv, filter_sleep_deleteEv]
    | ok t =>
      refine ⟨?_, ?_, fun d2 r2 => ?_⟩ <;>
        simp [analyze_pdf, h, primary, isOkUpload, List.filter_cons, List.filter_append,
          isRemoveEv, isDeleteEv, filter_sleep_removeEv, filter_sleep_deleteEv]

/-- C2: the batch loop produces exactly one stored result per input
document, in input order, each one a function of that document alone
(so no document's failure can affect any other document's outcome or
drop it from the lists). -/
theorem c2_batch_one_outcome_per_doc (docs : List (String × PipeEnv)) (n : Nat) :
    (analyze_pdfs docs n).results = docs.map (fun doc => docEntry doc.2 n doc.1) ∧
    (analyze_pdfs docs n).filenames = docs.map (fun doc => doc.1) ∧
    (analyze_pdfs docs n).results.length = docs.length := by
  induction docs with
  | nil => exact ⟨rfl, rfl, rfl⟩
  | cons hd tl ih =>
    obtain ⟨fn, env⟩ := hd
    obtain ⟨ih1, ih2, _⟩ := ih
    refine ⟨?_, ?_, ?_⟩
    · simp [analyze_pdfs, docEntry, ih1]
    · simp [analyze_pdfs, ih2]
    · simp [analyze_pdfs, ih1]

theorem infix_quoteField (s : String) : s.data <:+: (quoteField s).data :=
  ⟨['"'], ['"'], by simp [quoteField, String.data_append]⟩

theorem infix_joinComma (l : List String) (s : String) (h : s ∈ l) :
    s.data <:+: (joinComma l).data := by
  induction l with
  | nil => simp at h
  | cons a t ih =>
    cases t with
    | nil =>
      have : s = a := by simpa using h
      subst this
      exact ⟨[], [], by simp [joinComma]⟩
    | cons b t2 =>
      have hj : joinComma (a :: b :: t2) = a ++ ", " ++ joinComma (b :: t2) := rfl
      rcases List.mem_cons.mp h with heq | hmem
      · subst heq
        exact ⟨[], (", " ++ joinComma (b :: t2)).data, by simp [hj, String.data_append]⟩
      · exact (ih hmem).trans ⟨(a ++ ", ").data, [], by simp [hj, String.data_append]⟩

theorem infix_promptInstr (cl : String) : cl.data <:+: (promptInstr cl).data := by
  refine ⟨("\n\nBased on your analysis, return your findings as a JSON object with exactly these keys: " : String).data, ("\n\nEach value should be a string. If information for a field is not found, use \"N/A\".\n\nReturn ONLY the JSON object, no additional text or markdown formatting." : String).data, ?_⟩
  simp [promptInstr, String.data_append]

/-- C8: when the requested-keys list (the field list minus the reserved
identity field) is empty, `build_analysis_prompt` returns the user
instruction unchanged; otherwise its output contains every requested
field name verbatim, and the identity field name is not among the
requested keys. -/
theorem c8_prompt_compilation (user_prompt : String) (column_names : List String) :
    (outputColumns column_names = [] →
      build_analysis_prompt user_prompt column_names = user_prompt) ∧
    (outputColumns column_names ≠ [] →
      (∀ c ∈ outputColumns column_names,
        c.data <:+: (build_analysis_prompt user_prompt column_names).data) ∧
      "Document Name" ∉ outputColumns column_names) := by
  constructor
  · intro he
    simp [build_analysis_prompt, he]
  · intro hne
    constructor
    · intro c hc
      have h1 : c.data <:+: (joinComma ((outputColumns column_names).map quoteField)).data :=
        (infix_quoteField c).trans
          (infix_joinComma _ _ (List.mem_map_of_mem quoteField hc))
      have h2 := h1.trans (infix_promptInstr (joinComma ((outputColumns column_names).map quoteField)))
      have h3 := h2.trans
        (⟨user_prompt.data, [],
          by simp [String.data_append]⟩ :
          (promptInstr (joinComma ((outputColumns column_names).map quoteField))).data
            <:+: (user_prompt ++ promptInstr (joinComma ((outputColumns column_names).map quoteField))).data)
      simpa [build_analysis_prompt, hne] using h3
    · intro hm
      have hp := (List.mem_filter.mp hm).2
      simp [pyLower] at hp

/-- Witness for C8: a field list with one requested column yields a
prompt containing it, and a field list with only the identity column is
returned unchanged. -/
theorem c8_prompt_compilation_witness :
    ("Summary".data <:+: (build_analysis_prompt "Analyze this" ["Document Name", "Summary"]).data ∧
      "Document Name" ∉ outputColumns ["Document Name", "Summary"]) ∧
    build_analysis_prompt "Analyze this" ["Document Name"] = "Analyze this" := by
  constructor
  · have h := (c8_prompt_compilation "Analyze this" ["Document Name", "Summary"]).2
      (by decide)
    exact ⟨h.1 "Summary" (by decide), h.2⟩
  · exact (c8_prompt_compilation "Analyze this" ["Document Name"]).1 (by decide)

/-- C9: the exclusion of the identity field from the requested-keys list
is case-insensitive — any column whose lower-casing is
`"document name"` is dropped from the keys requested from the remote
service, not only the exact spelling `"Document Name"`. -/
theorem c9_case_insensitive_exclusion (column_names : List String) (c : String)
    (h : pyLower c = "document name") : c ∉ outputColumns column_names := by
  intro hm
  have hp := (List.mem_filter.mp hm).2
  simp [h] at hp

/-- Witness for C9: the case-variant `"DOCUMENT NAME"`, declared as a
non-identity column, is not requested. -/
theorem c9_case_insensitive_exclusion_witness :
    "DOCUMENT NAME" ∉ outputColumns ["Document Name", "DOCUMENT NAME"] :=
  c9_case_insensitive_exclusion ["Document Name", "DOCUMENT NAME"] "DOCUMENT NAME" rfl

/-- C10: `validate_api_key` treats an unset `GEMINI_API_KEY` and an
empty-string one identically, returning `(False, None)`; any non-empty
value is accepted and returned unmodified. -/
theorem c10_validate_api_key :
    validate_api_key none = (false, none) ∧
    validate_api_key (some "") = (false, none) ∧
    (∀ s : String, s ≠ "" → validate_api_key (some s) = (true, some s)) := by
  refine ⟨rfl, rfl, fun s hs => ?_⟩
  simp [validate_api_key, pyTruthy, hs]

/-- Witness for C10: a concrete non-empty key is accepted unmodified. -/
theorem c10_validate_api_key_witness :
    validate_api_key (some "abc") = (true, some "abc") :=
  (c10_validate_api_key).2.2 "abc" (by decide)

/-- C3 (amended): `_parse_json_response` always returns a mapping, and
that mapping has at least one key unless the cleaned response parses as
a JSON object — a valid empty object `\x7b\x7d` is returned as-is as an
empty mapping. -/
theorem c3_mapping_nonempty_unless_empty_object (s : String) :
    1 ≤ (parse_json_response s).length ∨
      (jsonLoadsL (cleanedL s.data) = some (JVal.obj []) ∧ parse_json_response s = []) := by
  cases h : jsonLoadsL (cleanedL s.data) with
  | none => exact Or.inl (by simp [parse_json_response, h])
  | some v =>
    cases v with
    | obj kvs =>
      cases kvs with
      | nil => exact Or.inr ⟨rfl, by simp [parse_json_response, h]⟩
      | cons k t => exact Or.inl (by simp [parse_json_response, h])
    | arr xs => exact Or.inl (by simp [parse_json_response, h])
    | str t => exact Or.inl (by simp [parse_json_response, h])
    | num lx => exact Or.inl (by simp [parse_json_response, h])
    | bool b => exact Or.inl (by simp [parse_json_response, h])
    | null => exact Or.inl (by simp [parse_json_response, h])

/-- Counterexample to C3 as frozen: the valid JSON empty object is
returned as an empty mapping, so the result does not always have at
least one key. -/
theorem c3_counterexample_empty_object :
    parse_json_response "\x7b\x7d" = [] ∧ (parse_json_response "\x7b\x7d").length = 0 :=
  ⟨rfl, rfl⟩

/-- C5 (amended): `format_results_for_export` pairs filenames with
outcomes in order; each record's reserved identity field is the
filename; a success record copies every declared non-identity column
from the result with the empty string as default; a failure record has
every declared non-identity column empty — provided no declared column
is named `"Error"`, the key under which the batch loop stores failure
reasons. -/
theorem c5_projection (outcomes : List Outcome) (filenames : List String)
    (column_names : List String) (hE : "Error" ∉ column_names) :
    exportRecords outcomes filenames column_names
      = (filenames.zip outcomes).map (fun p =>
          ("Document Name", JVal.str p.1) ::
            (column_names.filter (fun c => c ≠ "Document Name")).map (fun c =>
              (c, match p.2 with
                  | Outcome.success r => (r.lookup c).getD (JVal.str "")
                  | Outcome.failure _ => JVal.str ""))) := by
  unfold exportRecords format_results_for_export
  rw [List.zip_map_right, List.map_map]
  refine List.map_congr_left (fun p _ => ?_)
  obtain ⟨fn, oc⟩ := p
  simp only [Function.comp_apply, Prod.map, id]
  congr 1
  refine List.map_congr_left (fun c hc => ?_)
  have hcmem : c ∈ column_names := (List.mem_filter.mp hc).1
  cases oc with
  | success r => rfl
  | failure m =>
    have hne : c ≠ "Error" := fun he => hE (he ▸ hcmem)
    have hb : (c == "Error") = false := beq_eq_false_iff_ne.mpr hne
    simp [storedRecord, List.lookup, hb]

/-- Witness for C5 (amended): with columns `["Document Name", "Summary"]`,
a failure row exports an empty Summary and a success row copies it. -/
theorem c5_projection_witness :
    ("Error" ∉ (["Document Name", "Summary"] : List String)) ∧
    exportRecords [Outcome.failure "boom", Outcome.success [("Summary", JVal.str "ok")]]
        ["a.pdf", "b.pdf"] ["Document Name", "Summary"]
      = [[("Document Name", JVal.str "a.pdf"), ("Summary", JVal.str "")],
         [("Document Name", JVal.str "b.pdf"), ("Summary", JVal.str "ok")]] := by
  refine ⟨by decide, ?_⟩
  rw [c5_projection [Outcome.failure "boom", Outcome.success [("Summary", JVal.str "ok")]]
    ["a.pdf", "b.pdf"] ["Document Name", "Summary"] (by decide)]
  rfl

/-- Counterexample to C5 as frozen: with a declared column literally
named `"Error"`, a failure outcome's reason is copied into that column
of the export record, which is therefore not the empty string. -/
theorem c5_counterexample_error_column :
    exportRecords [Outcome.failure "boom"] ["a.pdf"] ["Document Name", "Error"]
      = [[("Document Name", JVal.str "a.pdf"), ("Error", JVal.str "boom")]] ∧
    ("boom" : String) ≠ "" :=
  ⟨rfl, by decide⟩

theorem fencedJson_data (t : String) :
    (fencedJson t).data
      = '\x60' :: '\x60' :: '\x60' :: 'j' :: 's' :: 'o' :: 'n' :: '\n'
          :: (t.data ++ ['\n', '\x60', '\x60', '\x60']) := rfl

theorem fencedPlain_data (t : String) :
    (fencedPlain t).data
      = '\x60' :: '\x60' :: '\x60' :: '\n' :: (t.data ++ ['\n', '\x60', '\x60', '\x60']) := rfl

theorem pyStripL_id (a : Char) (l : List Char) (b : Char)
    (ha : isPyWs a = false) (hb : isPyWs b = false) :
    pyStripL (a :: (l ++ [b])) = a :: (l ++ [b]) := by
  unfold pyStripL
  rw [List.dropWhile_cons_of_neg (by simp [ha])]
  have h1 : (a :: (l ++ [b])).reverse = b :: (l.reverse ++ [a]) := by simp
  rw [h1, List.dropWhile_cons_of_neg (by simp [hb])]
  simp

theorem head_not_pyWs_of_strip (l : List Char) (h : pyStripL l = l)
    (c : Char) (cs : List Char) (hl : l = c :: cs) : isPyWs c = false := by
  by_contra hws
  have hws' : isPyWs c = true := by
    cases hb : isPyWs c with
    | true => rfl
    | false => exact absurd hb hws
  subst hl
  have hd : (c :: cs).dropWhile isPyWs = cs.dropWhile isPyWs :=
    List.dropWhile_cons_of_pos (by simp [hws'])
  have hlen : (pyStripL (c :: cs)).length ≤ cs.length := by
    unfold pyStripL
    rw [hd]
    calc ((cs.dropWhile isPyWs).reverse.dropWhile isPyWs).reverse.length
        = ((cs.dropWhile isPyWs).reverse.dropWhile isPyWs).length := List.length_reverse _
      _ ≤ (cs.dropWhile isPyWs).reverse.length := (List.dropWhile_sublist _).length_le
      _ = (cs.dropWhile isPyWs).length := List.length_reverse _
      _ ≤ cs.length := (List.dropWhile_sublist _).length_le
  rw [h] at hlen
  simp at hlen

theorem parseValue_backtick (f : Nat) (rest : List Char) :
    parseValue f ('\x60' :: rest) = none := by
  cases f with
  | zero => rfl
  | succ f => simp [parseValue, parseNum]

theorem fenceStrip_not_backtick (c : Char) (l : List Char) (h : ¬ c = '\x60') :
    fenceStrip (c :: l) = none := by
  simp only [fenceStrip]
  have hcond : ¬ ((c :: l).take 3 = ['\x60', '\x60', '\x60']) := by
    intro he
    have h3 : (c :: l).take 3 = c :: l.take 2 := rfl
    rw [h3] at he
    exact h ((List.cons.injEq _ _ _ _).mp he).1
  rw [if_neg hcond]

theorem fenceStrip_none_of_loads (t : String) (v : JVal)
    (h : jsonLoadsL t.data = some v) : fenceStrip t.data = none := by
  cases hl : t.data with
  | nil => rfl
  | cons c cs =>
    by_cases hb : c = '\x60'
    · exfalso
      subst hb
      rw [hl] at h
      unfold jsonLoadsL at h
      rw [show skipWs ('\x60' :: cs) = '\x60' :: cs from
        List.dropWhile_cons_of_neg (by simp [isJsonWs])] at h
      rw [parseValue_backtick] at h
      exact Option.noConfusion h
    · exact fenceStrip_not_backtick c cs hb

theorem cleanedL_of_loads (t : String) (hs : pyStripL t.data = t.data) (v : JVal)
    (h : jsonLoadsL t.data = some v) : cleanedL t.data = t.data := by
  unfold cleanedL
  simp only [hs, fenceStrip_none_of_loads t v h]

theorem splitFenceEnd_append (l : List Char) :
    splitFenceEnd (l ++ ['\n', '\x60', '\x60', '\x60']) = some l := by
  unfold splitFenceEnd
  rw [List.reverse_append]
  simp

theorem fsGo_fenced (c0 : Char) (cs : List Char) (hws : isPyWs c0 = false) :
    fsGo ('\n' :: ((c0 :: cs) ++ ['\n', '\x60', '\x60', '\x60'])) = some (c0 :: cs) := by
  have h1 : fsGo (c0 :: (cs ++ ['\n', '\x60', '\x60', '\x60'])) = none := by
    unfold fsGo
    rw [if_neg (by simp [hws])]
  unfold fsGo
  rw [if_pos (by decide)]
  rw [List.cons_append, h1]
  rw [if_pos rfl]
  exact splitFenceEnd_append (c0 :: cs)

theorem fenceStrip_fencedJson (t : String) (c0 : Char) (cs : List Char)
    (ht : t.data = c0 :: cs) (hws : isPyWs c0 = false) :
    fenceStrip (fencedJson t).data = some t.data := by
  rw [fencedJson_data, ht]
  have h1 : fenceStrip ('\x60' :: '\x60' :: '\x60' :: 'j' :: 's' :: 'o' :: 'n' :: '\n'
        :: ((c0 :: cs) ++ ['\n', '\x60', '\x60', '\x60']))
      = match fsGo ('\n' :: ((c0 :: cs) ++ ['\n', '\x60', '\x60', '\x60'])) with
        | some body => some body
        | none =>
          fsGo ('j' :: 's' :: 'o' :: 'n' :: '\n'
            :: ((c0 :: cs) ++ ['\n', '\x60', '\x60', '\x60'])) := rfl
  rw [h1, fsGo_fenced c0 cs hws]

theorem fenceStrip_fencedPlain (t : String) (c0 : Char) (cs : List Char)
    (ht : t.data = c0 :: cs) (hws : isPyWs c0 = false) :
    fenceStrip (fencedPlain t).data = some t.data := by
  rw [fencedPlain_data, ht]
  have h1 : fenceStrip ('\x60' :: '\x60' :: '\x60' :: '\n'
        :: ((c0 :: cs) ++ ['\n', '\x60', '\x60', '\x60']))
      = fsGo ('\n' :: ((c0 :: cs) ++ ['\n', '\x60', '\x60', '\x60'])) := rfl
  rw [h1]
  exact fsGo_fenced c0 cs hws

theorem pyStripL_fencedJson (t : String) :
    pyStripL (fencedJson t).data = (fencedJson t).data := by
  have hshape : (fencedJson t).data
      = '\x60' :: (('\x60' :: '\x60' :: 'j' :: 's' :: 'o' :: 'n' :: '\n'
          :: (t.data ++ ['\n', '\x60', '\x60'])) ++ ['\x60']) := by
    rw [fencedJson_data]
    simp
  rw [hshape, pyStripL_id '\x60' _ '\x60' rfl rfl]

theorem pyStripL_fencedPlain (t : String) :
    pyStripL (fencedPlain t).data = (fencedPlain t).data := by
  have hshape : (fencedPlain t).data
      = '\x60' :: (('\x60' :: '\x60' :: '\n'
          :: (t.data ++ ['\n', '\x60', '\x60'])) ++ ['\x60']) := by
    rw [fencedPlain_data]
    simp
  rw [hshape, pyStripL_id '\x60' _ '\x60' rfl rfl]

/-- C6: wrapping a (trimmed) valid JSON object text in a markdown fenced
block — with or without the `json` language tag — yields the same
extracted mapping as extracting the unfenced text. -/
theorem c6_fence_tolerant (t : String) (kvs : List (String × JVal))
    (hs : pyStripL t.data = t.data)
    (h : jsonLoadsL t.data = some (JVal.obj kvs)) :
    parse_json_response (fencedJson t) = parse_json_response t ∧
    parse_json_response (fencedPlain t) = parse_json_response t := by
  have hne : t.data ≠ [] := by
    intro h0
    rw [h0] at h
    simp [jsonLoadsL, skipWs, parseValue] at h
  obtain ⟨c0, cs, ht⟩ : ∃ c0 cs, t.data = c0 :: cs := by
    cases hd : t.data with
    | nil => exact absurd hd hne
    | cons a b => exact ⟨a, b, rfl⟩
  have hws := head_not_pyWs_of_strip t.data hs c0 cs ht
  have hdirect : parse_json_response t = kvs := by
    unfold parse_json_response
    rw [cleanedL_of_loads t hs _ h, h]
  constructor
  · calc parse_json_response (fencedJson t)
        = kvs := by
          unfold parse_json_response
          have hclean : cleanedL (fencedJson t).data = t.data := by
            unfold cleanedL
            simp only [pyStripL_fencedJson, fenceStrip_fencedJson t c0 cs ht hws, hs]
          rw [hclean, h]
      _ = parse_json_response t := hdirect.symm
  · calc parse_json_response (fencedPlain t)
        = kvs := by
          unfold parse_json_response
          have hclean : cleanedL (fencedPlain t).data = t.data := by
            unfold cleanedL
            simp only [pyStripL_fencedPlain, fenceStrip_fencedPlain t c0 cs ht hws, hs]
          rw [hclean, h]
      _ = parse_json_response t := hdirect.symm

/-- Witness for C6: a concrete trimmed JSON object text, fenced both
ways, extracts to the same mapping as the unfenced form. -/
theorem c6_fence_tolerant_witness :
    (pyStripL ("\x7b\"a\": \"b\"\x7d" : String).data = ("\x7b\"a\": \"b\"\x7d" : String).data ∧
      jsonLoadsL ("\x7b\"a\": \"b\"\x7d" : String).data
        = some (JVal.obj [("a", JVal.str "b")])) ∧
    parse_json_response (fencedJson "\x7b\"a\": \"b\"\x7d")
      = parse_json_response "\x7b\"a\": \"b\"\x7d" ∧
    parse_json_response (fencedPlain "\x7b\"a\": \"b\"\x7d")
      = parse_json_response "\x7b\"a\": \"b\"\x7d" :=
  ⟨⟨rfl, rfl⟩, c6_fence_tolerant "\x7b\"a\": \"b\"\x7d" [("a", JVal.str "b")] rfl rfl⟩


theorem hexVal_hexDigit (d : Nat) (h : d < 16) : hexVal (hexDigit d) = some d := by
  interval_cases d <;> rfl

theorem escL_length (cs : List Char) : cs.length ≤ (escL cs).length := by
  induction cs with
  | nil => simp [escL]
  | cons c cs ih =>
    have h1 : 1 ≤ (escChar c).length := by
      rw [escChar]
      split
      · simp
      · split
        · simp
        · split <;> simp
    simp only [escL, List.length_append, List.length_cons]
    omega

theorem psGo_escL (cs : List Char) : ∀ (f : Nat), cs.length + 1 ≤ f →
    ∀ (acc rest : List Char),
    psGo f (escL cs ++ '"' :: rest) acc = some (⟨acc.reverse ++ cs⟩, rest) := by
  induction cs with
  | nil =>
    intro f hf acc rest
    obtain ⟨f2, rfl⟩ : ∃ f2, f = f2 + 1 := ⟨f - 1, by omega⟩
    show psGo (f2 + 1) ('"' :: rest) acc = _
    simp [psGo]
  | cons c cs ih =>
    intro f hf acc rest
    obtain ⟨f2, rfl⟩ : ∃ f2, f = f2 + 1 := ⟨f - 1, by omega⟩
    have hf2 : cs.length + 1 ≤ f2 := by
      simp only [List.length_cons] at hf
      omega
    by_cases hq : c = '"'
    · subst hq
      have hstep : psGo (f2 + 1) (escL ('"' :: cs) ++ '"' :: rest) acc
          = psGo f2 (escL cs ++ '"' :: rest) ('"' :: acc) := rfl
      rw [hstep, ih f2 hf2]
      simp
    · by_cases hb : c = '\\'
      · subst hb
        have hstep : psGo (f2 + 1) (escL ('\\' :: cs) ++ '"' :: rest) acc
            = psGo f2 (escL cs ++ '"' :: rest) ('\\' :: acc) := rfl
        rw [hstep, ih f2 hf2]
        simp
      · by_cases hc : c.toNat < 32
        · have he : escL (c :: cs) ++ '"' :: rest
              = '\\' :: 'u' :: '0' :: '0' :: hexDigit (c.toNat / 16)
                  :: hexDigit (c.toNat % 16) :: (escL cs ++ '"' :: rest) := by
            show escChar c ++ escL cs ++ '"' :: rest = _
            rw [escChar, if_neg hq, if_neg hb, if_pos hc]
            rfl
          have hdec : decodeEsc ('u' :: '0' :: '0' :: hexDigit (c.toNat / 16)
              :: hexDigit (c.toNat % 16) :: (escL cs ++ '"' :: rest))
              = some (c, escL cs ++ '"' :: rest) := by
            have e1 : hexVal (hexDigit (c.toNat / 16)) = some (c.toNat / 16) :=
              hexVal_hexDigit _ (by omega)
            have e2 : hexVal (hexDigit (c.toNat % 16)) = some (c.toNat % 16) :=
              hexVal_hexDigit _ (by omega)
            have e0 : hexVal '0' = some 0 := rfl
            have h44 : hex4 '0' '0' (hexDigit (c.toNat / 16)) (hexDigit (c.toNat % 16))
                = some c.toNat := by
              simp only [hex4, e0, e1, e2]
              congr 1
              omega
            have hg1 : ¬ (55296 ≤ c.toNat ∧ c.toNat ≤ 56319) := by omega
            have hg2 : ¬ (56320 ≤ c.toNat ∧ c.toNat ≤ 57343) := by omega
            simp [decodeEsc, h44, hg1, hg2, Char.ofNat_toNat]
          have hstep : psGo (f2 + 1) ('\\' :: 'u' :: '0' :: '0' :: hexDigit (c.toNat / 16)
              :: hexDigit (c.toNat % 16) :: (escL cs ++ '"' :: rest)) acc
              = match decodeEsc ('u' :: '0' :: '0' :: hexDigit (c.toNat / 16)
                  :: hexDigit (c.toNat % 16) :: (escL cs ++ '"' :: rest)) with
                | some (ch, rest2) => psGo f2 rest2 (ch :: acc)
                | none => none := rfl
          rw [he, hstep, hdec]
          show psGo f2 (escL cs ++ '"' :: rest) (c :: acc) = _
          rw [ih f2 hf2]
          simp
        · have he : escL (c :: cs) ++ '"' :: rest = c :: (escL cs ++ '"' :: rest) := by
            show escChar c ++ escL cs ++ '"' :: rest = _
            rw [escChar, if_neg hq, if_neg hb, if_neg hc]
            rfl
          rw [he]
          simp [psGo, hq, hb, hc, ih f2 hf2]

theorem psGo_quote_body (k : String) (rest : List Char) :
    psGo ((escL k.data ++ '"' :: rest).length + 1) (escL k.data ++ '"' :: rest) []
      = some (k, rest) := by
  have hlen : k.data.length + 1 ≤ (escL k.data ++ '"' :: rest).length + 1 := by
    have := escL_length k.data
    simp only [List.length_append, List.length_cons]
    omega
  exact (psGo_escL k.data _ hlen [] rest).trans rfl

theorem quoteL_append (k : String) (rest : List Char) :
    quoteL k ++ rest = '"' :: (escL k.data ++ '"' :: rest) := by
  simp [quoteL]

theorem parseStr_quoteL (k : String) (rest : List Char) :
    parseStr (quoteL k ++ rest) = some (k, rest) := by
  rw [quoteL_append]
  show psGo ((escL k.data ++ '"' :: rest).length + 1) (escL k.data ++ '"' :: rest) []
      = some (k, rest)
  exact psGo_quote_body k rest

theorem parseValue_quoteL (f : Nat) (v : String) (rest : List Char) :
    parseValue (f + 1) (quoteL v ++ rest) = some (JVal.str v, rest) := by
  rw [quoteL_append]
  have h1 : parseValue (f + 1) ('"' :: (escL v.data ++ '"' :: rest))
      = match psGo ((escL v.data ++ '"' :: rest).length + 1) (escL v.data ++ '"' :: rest) [] with
        | some (t, r) => some (JVal.str t, r)
        | none => none := rfl
  rw [h1, psGo_quote_body]

theorem skipWs_colon (l : List Char) : skipWs (':' :: l) = ':' :: l :=
  List.dropWhile_cons_of_neg (by decide)

theorem skipWs_comma (l : List Char) : skipWs (',' :: l) = ',' :: l :=
  List.dropWhile_cons_of_neg (by decide)

theorem skipWs_space (l : List Char) : skipWs (' ' :: l) = skipWs l :=
  List.dropWhile_cons_of_pos (by decide)

theorem skipWs_rbrace (l : List Char) : skipWs ('\x7d' :: l) = '\x7d' :: l :=
  List.dropWhile_cons_of_neg (by decide)

theorem skipWs_quoteL_append (s : String) (X : List Char) :
    skipWs (quoteL s ++ X) = quoteL s ++ X := by
  rw [quoteL_append]
  exact List.dropWhile_cons_of_neg (by decide)

theorem skipWs_dumpsMembers_cons (k2 v2 : String) (tl : List (String × String))
    (X : List Char) :
    skipWs (dumpsMembersL ((k2, v2) :: tl) ++ X) = dumpsMembersL ((k2, v2) :: tl) ++ X := by
  cases tl with
  | nil => exact List.dropWhile_cons_of_neg (by decide)
  | cons hd2 tl2 =>
    obtain ⟨a, b⟩ := hd2
    exact List.dropWhile_cons_of_neg (by decide)

theorem parseMembersWith_last (pv : List Char → Option (JVal × List Char)) (fl : Nat)
    (k v : String) (w : JVal) (rest : List Char)
    (hv : pv (quoteL v ++ '\x7d' :: rest) = some (w, '\x7d' :: rest)) :
    parseMembersWith pv (fl + 1) (quoteL k ++ (':' :: ' ' :: (quoteL v ++ '\x7d' :: rest)))
      = some ([(k, w)], rest) := by
  simp only [parseMembersWith, parseStr_quoteL, skipWs_colon, skipWs_space,
    skipWs_quoteL_append, hv, skipWs_rbrace]

theorem parseMembersWith_more (pv : List Char → Option (JVal × List Char)) (fl : Nat)
    (k v : String) (w : JVal) (Y : List Char)
    (hv : pv (quoteL v ++ ',' :: ' ' :: Y) = some (w, ',' :: ' ' :: Y))
    (hY : skipWs Y = Y) :
    parseMembersWith pv (fl + 1) (quoteL k ++ (':' :: ' ' :: (quoteL v ++ ',' :: ' ' :: Y)))
      = match parseMembersWith pv fl Y with
        | none => none
        | some (kvs, r5) => some ((k, w) :: kvs, r5) := by
  simp only [parseMembersWith, parseStr_quoteL, skipWs_colon, skipWs_space,
    skipWs_quoteL_append, hv, skipWs_comma, hY]

theorem parseMembersWith_dumps (m : List (String × String)) :
    ∀ (k v : String) (g f : Nat) (rest : List Char), m.length ≤ f →
    parseMembersWith (parseValue (g + 1)) (f + 1)
        (dumpsMembersL ((k, v) :: m) ++ '\x7d' :: rest)
      = some (((k, v) :: m).map (fun p => (p.1, JVal.str p.2)), rest) := by
  induction m with
  | nil =>
    intro k v g f rest _
    have hd : dumpsMembersL [(k, v)] ++ '\x7d' :: rest
        = quoteL k ++ (':' :: ' ' :: (quoteL v ++ '\x7d' :: rest)) := by
      show (quoteL k ++ ':' :: ' ' :: quoteL v) ++ '\x7d' :: rest = _
      simp [List.append_assoc]
    rw [hd, parseMembersWith_last (parseValue (g + 1)) f k v (JVal.str v) rest
      (parseValue_quoteL g v ('\x7d' :: rest))]
    simp
  | cons hd tl ih =>
    intro k v g f rest hf
    obtain ⟨k2, v2⟩ := hd
    have hf1 : tl.length + 1 ≤ f := by
      simp only [List.length_cons] at hf
      omega
    obtain ⟨f2, rfl⟩ : ∃ f2, f = f2 + 1 := ⟨f - 1, by omega⟩
    have hf2 : tl.length ≤ f2 := by omega
    have hd2 : dumpsMembersL ((k, v) :: (k2, v2) :: tl) ++ '\x7d' :: rest
        = quoteL k ++ (':' :: ' ' :: (quoteL v ++ ',' :: ' '
            :: (dumpsMembersL ((k2, v2) :: tl) ++ '\x7d' :: rest))) := by
      show ((quoteL k ++ (':' :: ' ' :: quoteL v))
          ++ (',' :: ' ' :: dumpsMembersL ((k2, v2) :: tl))) ++ '\x7d' :: rest = _
      simp [List.append_assoc]
    rw [hd2, parseMembersWith_more (parseValue (g + 1)) (f2 + 1) k v (JVal.str v)
      (dumpsMembersL ((k2, v2) :: tl) ++ '\x7d' :: rest)
      (parseValue_quoteL g v (',' :: ' ' :: (dumpsMembersL ((k2, v2) :: tl) ++ '\x7d' :: rest)))
      (skipWs_dumpsMembers_cons k2 v2 tl ('\x7d' :: rest))]
    rw [ih k2 v2 g f2 rest hf2]
    simp

theorem quoteL_length (s : String) : 2 ≤ (quoteL s).length := by
  show 2 ≤ ('"' :: (escL s.data ++ ['"'])).length
  simp

theorem dumpsMembersL_length (m : List (String × String)) :
    m.length ≤ (dumpsMembersL m).length := by
  induction m with
  | nil => simp [dumpsMembersL]
  | cons hd tl ih =>
    obtain ⟨k, v⟩ := hd
    cases tl with
    | nil =>
      have h1 := quoteL_length k
      show 1 ≤ (quoteL k ++ ':' :: ' ' :: quoteL v).length
      simp only [List.length_append, List.length_cons]
      omega
    | cons hd2 tl2 =>
      obtain ⟨a, b⟩ := hd2
      have h1 := quoteL_length k
      have h2 := quoteL_length v
      show ((a, b) :: tl2).length + 1
          ≤ ((quoteL k ++ (':' :: ' ' :: quoteL v))
              ++ (',' :: ' ' :: dumpsMembersL ((a, b) :: tl2))).length
      simp only [List.length_append, List.length_cons] at ih ⊢
      omega

theorem jsonLoadsL_obj (R Y : List Char) (mJ : List (String × JVal))
    (hR : R = '"' :: Y)
    (hm : parseMembersWith (parseValue (R.length + 1)) (R.length + 1) R = some (mJ, [])) :
    jsonLoadsL ('\x7b' :: R) = some (JVal.obj mJ) := by
  subst hR
  have hstep : jsonLoadsL ('\x7b' :: '"' :: Y)
      = (match (match parseMembersWith (parseValue (('"' :: Y).length + 1))
            (('"' :: Y).length + 1) ('"' :: Y) with
          | some (kvs, r3) => some (JVal.obj kvs, r3)
          | none => none) with
        | some (w, r) => if skipWs r = [] then some w else none
        | none => none) := rfl
  rw [hstep, hm]
  rfl

theorem jsonLoadsL_dumps (m : List (String × String)) :
    jsonLoadsL (dumps m).data = some (JVal.obj (m.map (fun p => (p.1, JVal.str p.2)))) := by
  cases m with
  | nil => rfl
  | cons hd tl =>
    obtain ⟨k, v⟩ := hd
    have hhead : ∃ Y, dumpsMembersL ((k, v) :: tl) ++ ['\x7d'] = '"' :: Y := by
      cases tl with
      | nil => exact ⟨_, rfl⟩
      | cons hd2 tl2 =>
        obtain ⟨a, b⟩ := hd2
        exact ⟨_, rfl⟩
    obtain ⟨Y, hY⟩ := hhead
    have hlen : tl.length ≤ (dumpsMembersL ((k, v) :: tl) ++ ['\x7d']).length := by
      have h1 := dumpsMembersL_length ((k, v) :: tl)
      simp only [List.length_append, List.length_cons] at h1 ⊢
      omega
    have hm := parseMembersWith_dumps tl k v
      ((dumpsMembersL ((k, v) :: tl) ++ ['\x7d']).length)
      ((dumpsMembersL ((k, v) :: tl) ++ ['\x7d']).length) [] hlen
    have hdata : (dumps ((k, v) :: tl)).data
        = '\x7b' :: (dumpsMembersL ((k, v) :: tl) ++ ['\x7d']) := rfl
    rw [hdata]
    exact jsonLoadsL_obj (dumpsMembersL ((k, v) :: tl) ++ ['\x7d']) Y
      (((k, v) :: tl).map (fun p => (p.1, JVal.str p.2))) hY hm

theorem cleanedL_dumps (m : List (String × String)) :
    cleanedL (dumps m).data = (dumps m).data := by
  have hdata : (dumps m).data = '\x7b' :: (dumpsMembersL m ++ ['\x7d']) := rfl
  have hstrip : pyStripL ((dumps m).data) = (dumps m).data := by
    rw [hdata]
    exact pyStripL_id '\x7b' (dumpsMembersL m) '\x7d' rfl rfl
  have hfence : fenceStrip ((dumps m).data) = none := by
    rw [hdata]
    exact fenceStrip_not_backtick '\x7b' (dumpsMembersL m ++ ['\x7d']) (by decide)
  unfold cleanedL
  simp only [hstrip, hfence]

/-- C7: `_parse_json_response` round-trips JSON serialization — parsing
the standard serialization of any flat string-to-string mapping returns
exactly that mapping. -/
theorem c7_round_trip (m : List (String × String)) :
    parse_json_response (dumps m) = m.map (fun p => (p.1, JVal.str p.2)) := by
  unfold parse_json_response
  rw [cleanedL_dumps, jsonLoadsL_dumps]
